import Mathlib

/-!
Verification development for the data_mcp repository.

The embedding covers, from src/dataengineer.py:
  - get_available_tables / get_table_columns_json (the Schema Catalog Reader),
  - validate_mapping (the Schema Validator tool),
  - get_mapping_details (the Mapping Resolver tool),
and from src/openai_mcp_client.py:
  - MCPClient.process_query (the Query Orchestrator loop).

Conventions: the sqlite database is modelled as a `Db` value whose queries
either return rows or raise (an `Except`); the excel mapping file is a table
of string-or-NaN cells; the language-model backend is a stream of completions
indexed by how many completions have been requested so far; the while loop of
process_query is run on explicit fuel, so that unbounded iteration shows up
as exhausting every fuel bound.
-/

namespace DataMcp

/-! ## Schema Catalog Reader (src/dataengineer.py lines 13-43) -/

/-- The sqlite database behind testdb.db.  Each query either yields rows or
raises; `Except.error` models an exception inside the aiosqlite calls. -/
structure Db where
  tablesQuery : Except String (List String)
  columnsQuery : String → Except String (List String)

/-- `get_available_tables` (lines 13-24): returns the table names, or the
empty list when the underlying query raises (the except branch). -/
def get_available_tables (db : Db) : List String :=
  match db.tablesQuery with
  | Except.ok rows => rows
  | Except.error _ => []

/-- `get_table_columns_json` (lines 26-43): column names of a table, or the
empty list when the underlying query raises. -/
def get_table_columns_json (db : Db) (table_name : String) : List String :=
  match db.columnsQuery table_name with
  | Except.ok cols => cols
  | Except.error _ => []

/-! ## Schema Validator: validate_mapping (src/dataengineer.py lines 199-284) -/

/-- One table descriptor from the request payload: the dict
`\x7b"tablename": ..., "columnNames": [...]\x7d`.  `tablename := none` models a
dict without that key (`.get` returns Python None); a missing "columnNames"
key defaults to `[]` exactly as in the source. -/
structure TableReq where
  tablename : Option String
  columnNames : List String
deriving Repr, DecidableEq

/-- The `table_columns_json` argument, which is `Any` in the source.  The
cases the code distinguishes: a dict carrying a "tables" key (whose value may
or may not be a list), a dict without one, a bare list, and any other value
(bare string, number, None, ...).  List items are modelled as well-formed
descriptors; a non-dict list item raises inside the loop and is outside the
claims treated here. -/
inductive VInput
  | dictWithTables (v : Sum (List TableReq) Unit)
  | dictNoTables
  | listInput (items : List TableReq)
  | scalar
deriving Repr, DecidableEq

/-- Lines 218-228: extraction of `tables_to_check`.  `tables_to_check` is
initialised to the (list) literal `[]`, so the final
`isinstance(tables_to_check, list)` test can only fail when the input was a
dict whose "tables" value is a non-list (`Sum.inr`): for a scalar or a dict
without "tables" the code silently proceeds with the empty list. -/
def extractTables : VInput → Except Unit (List TableReq)
  | VInput.dictWithTables (Sum.inl items) => Except.ok items
  | VInput.dictWithTables (Sum.inr _) => Except.error ()
  | VInput.dictNoTables => Except.ok []
  | VInput.listInput items => Except.ok items
  | VInput.scalar => Except.ok []

/-- One entry of `column_validations`: `\x7b"column": c, "exists": bool\x7d`.
The "exists" key is rendered as the field `exists_`. -/
structure ColVal where
  column : String
  exists_ : Bool
deriving Repr, DecidableEq

/-- One entry of `validations`.  The source appends dicts of two distinct
shapes: the missing-table record (lines 241-246, keys table/exists/
column_validations/errors) and the present-table record (lines 260-266, keys
table/exists/column_validations/valid_columns/invalid_columns). -/
inductive TableVal
  | missing (table : Option String)
  | present (table : String) (column_validations : List ColVal)
deriving Repr, DecidableEq

/-- The "exists" value of a validation record. -/
def TableVal.exists_ : TableVal → Bool
  | TableVal.missing _ => false
  | TableVal.present _ _ => true

/-- The "column_validations" value of a validation record. -/
def TableVal.column_validations : TableVal → List ColVal
  | TableVal.missing _ => []
  | TableVal.present _ cvs => cvs

/-- The "valid_columns" key: only present on the present-table record,
`[c["column"] for c in column_validations if c["exists"]]`. -/
def TableVal.valid_columns : TableVal → Option (List String)
  | TableVal.missing _ => none
  | TableVal.present _ cvs => some ((cvs.filter (fun c => c.exists_)).map (fun c => c.column))

/-- The "invalid_columns" key: only present on the present-table record. -/
def TableVal.invalid_columns : TableVal → Option (List String)
  | TableVal.missing _ => none
  | TableVal.present _ cvs => some ((cvs.filter (fun c => !c.exists_)).map (fun c => c.column))

/-- `v.get("invalid_columns", [])` as used in the all_valid aggregation. -/
def TableVal.invalidColumnsGetD (v : TableVal) : List String :=
  (v.invalid_columns).getD []

/-- The "errors" key of a validation record (only the missing shape has it). -/
def TableVal.errors : TableVal → List String
  | TableVal.missing _ => ["Table does not exist in the database"]
  | TableVal.present _ _ => []

/-- The dict returned by validate_mapping.  The "valid" key is absent from
the two failure payloads, hence an `Option`. -/
structure VResult where
  success : Bool
  valid : Option Bool
  validations : List TableVal
  errors : List String
deriving Repr, DecidableEq

/-- The body of the per-table loop (lines 235-266).  `available` is the
result of get_available_tables.  A `None` table name is never `in` a list of
strings, so it lands in the missing branch. -/
def validateTable (db : Db) (available : List String) (td : TableReq) : TableVal :=
  match td.tablename with
  | none => TableVal.missing none
  | some t =>
      if available.contains t then
        TableVal.present t
          ((td.columnNames).map
            (fun c => { column := c, exists_ := (get_table_columns_json db t).contains c }))
      else TableVal.missing (some t)

/-- `validate_mapping` (lines 199-284). -/
def validate_mapping (db : Db) (input : VInput) : VResult :=
  match extractTables input with
  | Except.error _ =>
      { success := false, valid := none, validations := [],
        errors := ["Invalid input format: expected \x27tables\x27 list"] }
  | Except.ok tables_to_check =>
      let available := get_available_tables db
      let validations := tables_to_check.map (validateTable db available)
      let all_valid := validations.all (fun v => v.exists_) &&
                       validations.all (fun v => v.invalidColumnsGetD.isEmpty)
      { success := true, valid := some all_valid, validations := validations,
        errors := [] }

/-! ## Mapping Resolver: get_mapping_details (src/dataengineer.py lines 46-197) -/

/-- One excel cell as pandas reads it: a string value or NaN (missing). -/
inductive Cell
  | str (s : String)
  | nan
deriving Repr, DecidableEq

/-- The mapping.xlsx data frame: a header row and rows of cells aligned with
the header. -/
structure XTable where
  cols : List String
  rows : List (List Cell)
deriving Repr, DecidableEq

/-- Cell lookup by column name (pandas column indexing); out-of-range or
unknown columns read as NaN (only reached for columns already checked to be
present). -/
def getCell (cols : List String) (row : List Cell) (c : String) : Cell :=
  match cols.indexOf? c with
  | some i => (row.get? i).getD Cell.nan
  | none => Cell.nan

/-- Python str.lower() (as used by `.str.lower()` and `.lower()` in the
source): lower-case every character.  Defined over the character list so
that it evaluates by kernel reduction. -/
def pyLower (s : String) : String := ⟨s.data.map Char.toLower⟩

/-- `df[col].astype(str).str.lower()` on one cell: NaN stringifies to "nan". -/
def cellLowerStr : Cell → String
  | Cell.str s => pyLower s
  | Cell.nan => "nan"

/-- A cell after the NaN-to-None normalisation of lines 141-144. -/
def cellOpt : Cell → Option String
  | Cell.str s => some s
  | Cell.nan => none

/-- The `required_columns` list of lines 62-68. -/
def required_columns : List String :=
  ["Mapping Name", "Type", "Alias", "Full Table Name / Subquery Definition",
   "Join Type", "Left Alias", "Right Alias", "Join Condition", "Load Strategy",
   "Source Data Type (Expected Result)", "Target Field Name", "Target Data Type",
   "Target Description", "Target PK", "Transformation Type",
   "Transformation Logic / Expression", "Default Value", "Is Active"]

/-- One record of `mapping_data` after the rename of lines 119-138 and the
NaN-to-None replacement of lines 141-144. -/
structure MappingRecord where
  mapping_name : Option String
  type : Option String
  alias_ : Option String
  definition : Option String
  join_type : Option String
  left_alias : Option String
  right_alias : Option String
  join_condition : Option String
  load_strategy : Option String
  source_data_type : Option String
  target_field_name : Option String
  target_data_type : Option String
  target_description : Option String
  target_pk : Option String
  transformation_type : Option String
  transformation_logic : Option String
  default_value : Option String
  is_active : Option String
deriving Repr, DecidableEq

/-- Build one normalized record from a matched row. -/
def normalizeRow (cols : List String) (row : List Cell) : MappingRecord :=
  { mapping_name := cellOpt (getCell cols row "Mapping Name"),
    type := cellOpt (getCell cols row "Type"),
    alias_ := cellOpt (getCell cols row "Alias"),
    definition := cellOpt (getCell cols row "Full Table Name / Subquery Definition"),
    join_type := cellOpt (getCell cols row "Join Type"),
    left_alias := cellOpt (getCell cols row "Left Alias"),
    right_alias := cellOpt (getCell cols row "Right Alias"),
    join_condition := cellOpt (getCell cols row "Join Condition"),
    load_strategy := cellOpt (getCell cols row "Load Strategy"),
    source_data_type := cellOpt (getCell cols row "Source Data Type (Expected Result)"),
    target_field_name := cellOpt (getCell cols row "Target Field Name"),
    target_data_type := cellOpt (getCell cols row "Target Data Type"),
    target_description := cellOpt (getCell cols row "Target Description"),
    target_pk := cellOpt (getCell cols row "Target PK"),
    transformation_type := cellOpt (getCell cols row "Transformation Type"),
    transformation_logic := cellOpt (getCell cols row "Transformation Logic / Expression"),
    default_value := cellOpt (getCell cols row "Default Value"),
    is_active := cellOpt (getCell cols row "Is Active") }

/-- One entry of `sql_generation_hints["tables"]` (lines 148-151). -/
structure TableHint where
  alias_ : Option String
  definition : Option String
  type : Option String
deriving Repr, DecidableEq

/-- One entry of `sql_generation_hints["joins"]` (lines 152-160). -/
structure JoinHint where
  join_type : Option String
  left_alias : Option String
  right_alias : Option String
  condition : Option String
deriving Repr, DecidableEq

/-- One entry of `sql_generation_hints["filters"]` (lines 161-164). -/
structure FilterHint where
  alias_ : Option String
  condition : Option String
deriving Repr, DecidableEq

/-- The `sql_generation_hints["target"]` entry (lines 165-168); `none`
models the `\x7b\x7d` default when no Target-typed row exists. -/
structure TargetHint where
  alias_ : Option String
  load_strategy : Option String
deriving Repr, DecidableEq

/-- One entry of `sql_generation_hints["field_mappings"]` (lines 169-177). -/
structure FieldMappingHint where
  target_field : Option String
  expression : Option String
  default : Option String
  is_active : Option String
deriving Repr, DecidableEq

/-- Python truthiness of an optional-string cell value: None and "" are
falsy. -/
def truthyStr : Option String → Bool
  | none => false
  | some s => !s.isEmpty

/-- The expression of one field mapping (line 172).  Python parses it as
`(logic or (alias + "." + definition)) if definition else None`; when the
fallback concatenation is taken with `alias` equal to None, `None + "."`
raises a TypeError, modelled as `Except.error`. -/
def fieldExpr (r : MappingRecord) : Except String (Option String) :=
  if truthyStr r.definition then
    if truthyStr r.transformation_logic then Except.ok r.transformation_logic
    else
      match r.alias_ with
      | some a => Except.ok (some (a ++ "." ++ (r.definition.getD "")))
      | none => Except.error "unsupported operand type(s) for +: \x27NoneType\x27 and \x27str\x27"
  else Except.ok none

/-- The full `sql_generation_hints` local (lines 147-178). -/
structure SqlHints where
  tables : List TableHint
  joins : List JoinHint
  filters : List FilterHint
  target : Option TargetHint
  field_mappings : List FieldMappingHint
deriving Repr, DecidableEq

/-- Computes `sql_generation_hints` from the normalized records; the
field-mapping comprehension can raise through `fieldExpr`, in which case the
enclosing `except` of get_mapping_details takes over. -/
def computeHints (recs : List MappingRecord) : Except String SqlHints := do
  let fms ← (recs.filter (fun r => r.type == some "Field Mapping")).mapM
    (fun r => do
      let e ← fieldExpr r
      pure { target_field := r.target_field_name, expression := e,
             default := r.default_value, is_active := r.is_active : FieldMappingHint })
  pure
    { tables :=
        (recs.filter (fun r => r.type == some "Table" || r.type == some "Subquery")).map
          (fun r => { alias_ := r.alias_, definition := r.definition, type := r.type }),
      joins :=
        (recs.filter (fun r => r.type == some "Join")).map
          (fun r => { join_type := r.join_type, left_alias := r.left_alias,
                      right_alias := r.right_alias, condition := r.join_condition }),
      filters :=
        (recs.filter (fun r => r.type == some "Filter")).map
          (fun r => { alias_ := r.alias_, condition := r.join_condition }),
      target :=
        ((recs.filter (fun r => r.type == some "Target")).head?).map
          (fun r => { alias_ := r.alias_, load_strategy := r.load_strategy }),
      field_mappings := fms }

/-- The dict returned by get_mapping_details.  NOTE: the source computes
`sql_generation_hints` but the returned dict omits that key — lines 187-188
are commented out — so the result carries no hints component, contradicting
its own docstring (line 59). -/
structure MappingResult where
  success : Bool
  mapping_data : List MappingRecord
  errors : List String
  metadata_ref : String
deriving Repr, DecidableEq

/-- Line 84-95: the mapping reference column is "Mapping Name" when present,
otherwise the first column; `none` when the frame has no columns at all. -/
def pickRefCol (cols : List String) : Option String :=
  if cols.contains "Mapping Name" then some "Mapping Name" else cols.head?

/-- `get_mapping_details` (lines 46-197).  `file := none` models a missing
mapping.xlsx.  On the success path the hints are computed (and may raise,
falling into the broad except handler of lines 191-197) but are not part of
the returned payload. -/
def get_mapping_details (file : Option XTable) (name : String) : MappingResult :=
  match file with
  | none =>
      { success := false, mapping_data := [],
        errors := ["Mapping file not found"], metadata_ref := name }
  | some df =>
      match pickRefCol df.cols with
      | none =>
          { success := false, mapping_data := [],
            errors := ["Mapping file has no columns."], metadata_ref := name }
      | some refCol =>
          let missing := required_columns.filter (fun c => !df.cols.contains c)
          if missing.isEmpty then
            let matched := df.rows.filter
              (fun row => cellLowerStr (getCell df.cols row refCol) == pyLower name)
            if matched.isEmpty then
              { success := false, mapping_data := [],
                errors := ["No mapping found for reference name: " ++ name],
                metadata_ref := name }
            else
              let mapping_data := matched.map (normalizeRow df.cols)
              match computeHints mapping_data with
              | Except.error e =>
                  { success := false, mapping_data := [],
                    errors := ["An error occurred while processing the mapping file: " ++ e],
                    metadata_ref := name }
              | Except.ok _ =>
                  { success := true, mapping_data := mapping_data, errors := [],
                    metadata_ref := name }
          else
            { success := false, mapping_data := [],
              errors := ["Missing required columns in mapping file: " ++
                         String.intercalate ", " missing],
              metadata_ref := name }

/-! ## Query Orchestrator: MCPClient.process_query
(src/openai_mcp_client.py lines 66-178) -/

/-- One requested tool call inside a completion: id, function name and the
raw JSON `arguments` string. -/
structure ToolCall where
  id : String
  name : String
  args : String
deriving Repr, DecidableEq

/-- One model completion (`response.choices[0].message`): optional free-text
content and the optional `tool_calls` list (`none` models Python None, which
is distinct from an empty list for both truthiness and iteration). -/
structure Completion where
  content : Option String
  tool_calls : Option (List ToolCall)
deriving Repr, DecidableEq

/-- Python truthiness of `message.tool_calls`: None and `[]` are falsy. -/
def truthyCalls : Option (List ToolCall) → Bool
  | none => false
  | some l => !l.isEmpty

/-- `if message.content:` — content is recorded only when non-None and
non-empty. -/
def contentFrag : Option String → List String
  | none => []
  | some s => if s.isEmpty then [] else [s]

/-- One transcript message.  The source appends exactly four dict shapes:
the fixed system prompt, user messages (the query and the synthetic
"Go to next step"), the assistant record of one tool call (content None,
a one-element tool_calls list, lines 133-143), and an assistant free-text
message (also used for tool results, lines 145-148). -/
inductive Msg
  | system (content : String)
  | user (content : String)
  | assistantToolCall (id name args : String)
  | assistantContent (content : String)
deriving Repr, DecidableEq

/-- The model backend and tool session as process_query sees them:
`backend n` is the completion returned by the (n+1)-th chat.completions
request; `tool name args` is `str(result.content)` for a call_tool round
trip; `fmtArgs` is the rendering of the parsed arguments used inside the
bracketed final-text marker (`f"... with args \x7btool_args\x7d"`). -/
structure Ctx where
  backend : Nat → Completion
  tool : String → String → String
  fmtArgs : String → String

/-- The mutable locals of process_query: the transcript `messages`, the
`final_text` fragments, the `loop` counter and the number of completions
requested so far. -/
structure PState where
  messages : List Msg
  finalText : List String
  loopCtr : Nat
  k : Nat
deriving Repr, DecidableEq

/-- Outcome of running process_query on explicit fuel for the while loop:
normal return, an exception propagating out (the `for` iterating Python
None), or fuel exhaustion — the source has no iteration cap, so a run that
exhausts every fuel bound is an unboundedly iterating run. -/
inductive RunRes
  | done (s : PState) (text : String)
  | raised (s : PState)
  | outOfFuel (s : PState)
deriving Repr, DecidableEq

/-- The locals at the moment the run stopped. -/
def RunRes.state : RunRes → PState
  | RunRes.done s _ => s
  | RunRes.raised s => s
  | RunRes.outOfFuel s => s

/-- `true` exactly when the run exhausted its fuel. -/
def RunRes.isOutOfFuel : RunRes → Bool
  | RunRes.outOfFuel _ => true
  | _ => false

/-- The returned text of a normally finished run. -/
def RunRes.doneText : RunRes → Option String
  | RunRes.done _ t => some t
  | _ => none

/-- The `for tool_call in message.tool_calls:` body (lines 122-172), run over
the snapshot of the list taken at loop entry.  Each step invokes the tool,
appends the marker to final_text, appends the assistant call record, the
tool-result message and the synthetic "Go to next step" user message to the
transcript, then requests the next completion, updates `loop` (increment on
a truthy tool_calls, reset to 0 otherwise) and records its content. -/
def runCalls (ctx : Ctx) : List ToolCall → Completion → PState → Completion × PState
  | [], msg, s => (msg, s)
  | tc :: rest, _msg, s =>
      let result := ctx.tool tc.name tc.args
      let s1 : PState :=
        { s with
          finalText := s.finalText ++
            ["[Calling tool " ++ tc.name ++ " with args " ++ ctx.fmtArgs tc.args ++ "]"],
          messages := s.messages ++
            [Msg.assistantToolCall tc.id tc.name tc.args,
             Msg.assistantContent ("Response from tool " ++ tc.name ++ "\n" ++ result),
             Msg.user "Go to next step"] }
      let newMsg := ctx.backend s1.k
      let s2 : PState :=
        { s1 with
          k := s1.k + 1,
          loopCtr := if truthyCalls newMsg.tool_calls then s1.loopCtr + 1 else 0,
          finalText := s1.finalText ++ contentFrag newMsg.content }
      runCalls ctx rest newMsg s2

/-- The `while loop>0:` loop (lines 121-172) on explicit fuel.  When the
guard holds and `message.tool_calls` is Python None, the `for` raises a
TypeError that propagates out of process_query (lines 175-178); when it is a
list, the loop body runs over its snapshot.  When the guard fails the
function returns `"\n".join(final_text)`. -/
def runWhile (ctx : Ctx) : Nat → Completion → PState → RunRes
  | 0, _, s => RunRes.outOfFuel s
  | n + 1, msg, s =>
      if s.loopCtr > 0 then
        match msg.tool_calls with
        | none => RunRes.raised s
        | some calls =>
            let r := runCalls ctx calls msg s
            runWhile ctx n r.1 r.2
      else
        RunRes.done s (String.intercalate "\n" s.finalText)

/-- The fixed system instruction of lines 72-78. -/
def systemPrompt : String :=
  "\n1. Do not give much explanation. Just provide only answer to the questions\n" ++
  "2. SQL query should be created in sqlite SQL format\n" ++
  "3. Do not use CTE. Instead use sub query\n" ++
  "4. Do not retry a step unless error\n" ++
  "5. First create step by step plan before start to work on(feek free adopt plan on the fly)\n"

/-- `process_query` (lines 66-178).  The transcript starts with the system
instruction and the user query; the content of the first completion is recorded;
`loop` is 1 whether or not that completion carries tool calls (line 111
initialises it to 1 and line 118 re-assigns the same value), so the while
loop is always entered. -/
def process_query (ctx : Ctx) (fuel : Nat) (query : String) : RunRes :=
  let msg0 := ctx.backend 0
  let s0 : PState :=
    { messages := [Msg.system systemPrompt, Msg.user query],
      finalText := contentFrag msg0.content,
      loopCtr := 1,
      k := 1 }
  runWhile ctx fuel msg0 s0

/-! ## Spec-side description of the returned text

These definitions follow the words of the (amended) output-concatenation
claim, independently of the `PState` bookkeeping: the returned text is the
newline-join of, in order, the first completion content when non-empty and,
for each executed tool call, a bracketed calling marker followed by the
non-empty content of the completion requested right after that call.  They
are compared against `process_query` by refinement below. -/

/-- A free-text fragment of one completion: its content when non-empty. -/
def specFrag : Option String → List String
  | none => []
  | some s => if s.isEmpty then [] else [s]

/-- Fragments contributed by one pass over a tool-call list starting at
completion index `k`: per call, the marker then the following completion
content. -/
def specCallFrags (ctx : Ctx) : List ToolCall → Nat → List String
  | [], _ => []
  | tc :: rest, k =>
      ("[Calling tool " ++ tc.name ++ " with args " ++ ctx.fmtArgs tc.args ++ "]") ::
      (specFrag (ctx.backend k).content ++ specCallFrags ctx rest (k + 1))

/-- Fragments of the whole while loop, by pass: `none` when the run does
not finish within the fuel (or raises on a None tool_calls). -/
def specWhile (ctx : Ctx) : Nat → Completion → Nat → Option (List String)
  | 0, _, _ => none
  | n + 1, msg, k =>
      match msg.tool_calls with
      | none => none
      | some [] => specWhile ctx n msg k
      | some (c :: cs) =>
          let frags := specCallFrags ctx (c :: cs) k
          let k2 := k + (c :: cs).length
          if truthyCalls (ctx.backend (k2 - 1)).tool_calls then
            match specWhile ctx n (ctx.backend (k2 - 1)) k2 with
            | some l => some (frags ++ l)
            | none => none
          else some frags

/-- All fragments of a finishing run: the first completion content followed
by the while-loop fragments. -/
def specFragments (ctx : Ctx) (fuel : Nat) : Option (List String) :=
  match specWhile ctx fuel (ctx.backend 0) 1 with
  | some l => some (specFrag (ctx.backend 0).content ++ l)
  | none => none

/-! ## Transcript-shape helpers for the ordering invariant -/

/-- The transcript messages appended by one pass over a tool-call list: one
call record, its result message and the synthetic continue prompt, per
call. -/
def msgBlocks (ctx : Ctx) : List ToolCall → List Msg
  | [] => []
  | tc :: rest =>
      Msg.assistantToolCall tc.id tc.name tc.args ::
      Msg.assistantContent ("Response from tool " ++ tc.name ++ "\n" ++ ctx.tool tc.name tc.args) ::
      Msg.user "Go to next step" ::
      msgBlocks ctx rest

/-- The ordering invariant on a transcript: right after every assistant
tool-call record comes the message carrying that call result. -/
def goodMsgs (ctx : Ctx) (ms : List Msg) : Prop :=
  ∀ i a b c, ms[i]? = some (Msg.assistantToolCall a b c) →
    ms[i + 1]? = some (Msg.assistantContent ("Response from tool " ++ b ++ "\n" ++ ctx.tool b c))

/-! ## The mapping_data component as a function of the lower-cased name
(used for the case-insensitivity claim) -/

/-- The `mapping_data` component of get_mapping_details, which depends on
the requested name only through its lower-cased form. -/
def mdataOf (file : Option XTable) (low : String) : List MappingRecord :=
  match file with
  | none => []
  | some df =>
      match pickRefCol df.cols with
      | none => []
      | some refCol =>
          if (required_columns.filter (fun c => !df.cols.contains c)).isEmpty then
            let matched := df.rows.filter
              (fun row => cellLowerStr (getCell df.cols row refCol) == low)
            if matched.isEmpty then []
            else
              match computeHints (matched.map (normalizeRow df.cols)) with
              | Except.error _ => []
              | Except.ok _ => matched.map (normalizeRow df.cols)
          else []

/-! ## Concrete fixtures used by witnesses and counterexamples -/

/-- A database with no tables whose queries succeed. -/
def dbUnit : Db := ⟨Except.ok [], fun _ => Except.ok []⟩

/-- A database with one table "T" having columns "a" and "b". -/
def dbTab : Db :=
  ⟨Except.ok ["T"], fun t => if t == "T" then Except.ok ["a", "b"] else Except.ok []⟩

/-- A database whose sqlite_master query raises. -/
def dbFail : Db := ⟨Except.error "database is locked", fun _ => Except.ok ["a"]⟩

/-- The Table row of the end-to-end scenario: mapping orders_to_fact, type
Table, alias o, definition orders, every other cell missing. -/
def ordersRowTable : List Cell :=
  [Cell.str "orders_to_fact", Cell.str "Table", Cell.str "o", Cell.str "orders",
   Cell.nan, Cell.nan, Cell.nan, Cell.nan, Cell.nan, Cell.nan, Cell.nan, Cell.nan,
   Cell.nan, Cell.nan, Cell.nan, Cell.nan, Cell.nan, Cell.nan]

/-- The Field Mapping row of the scenario: target field order_total, no
transformation expression, alias o, definition total. -/
def ordersRowField : List Cell :=
  [Cell.str "orders_to_fact", Cell.str "Field Mapping", Cell.str "o", Cell.str "total",
   Cell.nan, Cell.nan, Cell.nan, Cell.nan, Cell.nan, Cell.nan, Cell.str "order_total",
   Cell.nan, Cell.nan, Cell.nan, Cell.nan, Cell.nan, Cell.nan, Cell.nan]

/-- The scenario mapping file: the eighteen required columns and the two
rows above. -/
def ordersTbl : XTable := ⟨required_columns, [ordersRowTable, ordersRowField]⟩

/-- A backend that requests a further tool call on every completion. -/
def ctxAlways : Ctx :=
  ⟨fun _ => ⟨none, some [⟨"1", "t", "a"⟩]⟩, fun _ _ => "r", fun s => s⟩

/-- A backend whose first completion requests one tool call and whose second
answers with plain text "done" and no tool calls. -/
def ctxOnce : Ctx :=
  ⟨fun k => if k == 0 then ⟨none, some [⟨"i", "t", "a"⟩]⟩ else ⟨some "done", none⟩,
   fun _ _ => "r", fun s => s⟩

/-! ## Theorems -/

/-- C3: for every catalog in which table T exists with column set exactly
consisting of a and b, validate_mapping on the request with T and columns
[a, b] returns valid=true with both columns marked existing, and on the
request with T and columns [a, c] (c not a column of T) returns valid=false
with c in the invalid_columns of that table and a in its valid_columns. -/
theorem validate_mapping_column_checks
    (db : Db) (T a b c : String)
    (hT : T ∈ get_available_tables db)
    (hcols : ∀ x : String, x ∈ get_table_columns_json db T ↔ (x = a ∨ x = b))
    (hca : c ≠ a) (hcb : c ≠ b) :
    (validate_mapping db (VInput.dictWithTables (Sum.inl [⟨some T, [a, b]⟩]))).valid
        = some true ∧
    (validate_mapping db (VInput.dictWithTables (Sum.inl [⟨some T, [a, b]⟩]))).validations
        = [TableVal.present T [⟨a, true⟩, ⟨b, true⟩]] ∧
    (validate_mapping db (VInput.dictWithTables (Sum.inl [⟨some T, [a, c]⟩]))).valid
        = some false ∧
    (validate_mapping db (VInput.dictWithTables (Sum.inl [⟨some T, [a, c]⟩]))).validations
        = [TableVal.present T [⟨a, true⟩, ⟨c, false⟩]] ∧
    (TableVal.present T [⟨a, true⟩, ⟨c, false⟩]).invalid_columns = some [c] ∧
    (TableVal.present T [⟨a, true⟩, ⟨c, false⟩]).valid_columns = some [a] := by
  have ham : a ∈ get_table_columns_json db T := (hcols a).mpr (Or.inl rfl)
  have hbm : b ∈ get_table_columns_json db T := (hcols b).mpr (Or.inr rfl)
  have hcm : c ∉ get_table_columns_json db T := by
    intro hmem
    rcases (hcols c).mp hmem with h1 | h1
    · exact hca h1
    · exact hcb h1
  refine ⟨?_, ?_, ?_, ?_, ?_, ?_⟩ <;>
    simp [validate_mapping, extractTables, validateTable, hT, ham, hbm, hcm,
          TableVal.exists_, TableVal.invalidColumnsGetD, TableVal.invalid_columns,
          TableVal.valid_columns]

/-- C3 witness: the concrete catalog dbTab with table T and columns a, b. -/
theorem validate_mapping_column_checks_witness :
    (validate_mapping dbTab (VInput.dictWithTables (Sum.inl [⟨some "T", ["a", "b"]⟩]))).valid
        = some true ∧
    (validate_mapping dbTab (VInput.dictWithTables (Sum.inl [⟨some "T", ["a", "b"]⟩]))).validations
        = [TableVal.present "T" [⟨"a", true⟩, ⟨"b", true⟩]] ∧
    (validate_mapping dbTab (VInput.dictWithTables (Sum.inl [⟨some "T", ["a", "c"]⟩]))).valid
        = some false ∧
    (validate_mapping dbTab (VInput.dictWithTables (Sum.inl [⟨some "T", ["a", "c"]⟩]))).validations
        = [TableVal.present "T" [⟨"a", true⟩, ⟨"c", false⟩]] ∧
    (TableVal.present "T" [⟨"a", true⟩, ⟨"c", false⟩]).invalid_columns = some ["c"] ∧
    (TableVal.present "T" [⟨"a", true⟩, ⟨"c", false⟩]).valid_columns = some ["a"] :=
  validate_mapping_column_checks dbTab "T" "a" "b" "c"
    (by decide)
    (by intro x; constructor
        · intro hx
          simpa [dbTab, get_table_columns_json] using hx
        · intro hx
          rcases hx with h | h <;> simp [dbTab, get_table_columns_json, h])
    (by decide) (by decide)

/-- C4 counterexample: on a bare scalar input (neither a mapping with table
descriptors nor a list), validate_mapping does not return the structured
failure the claim requires: it returns success=true, valid=true and an empty
errors list, because tables_to_check is initialised to a list literal and
the invalid-format test can no longer fail. -/
theorem validate_mapping_scalar_counterexample :
    (validate_mapping dbUnit VInput.scalar).success = true ∧
    (validate_mapping dbUnit VInput.scalar).valid = some true ∧
    (validate_mapping dbUnit VInput.scalar).errors = [] := by
  exact ⟨rfl, rfl, rfl⟩

/-- C4 amended: only a mapping whose "tables" value is present and not a
list yields the structured success=false failure with a non-empty errors
list; a bare scalar (string or number) or a mapping without table
descriptors instead returns success=true, valid=true with no validations;
in every case a structured payload is returned, no exception crosses the
tool boundary. -/
theorem validate_mapping_malformed_inputs (db : Db) :
    (validate_mapping db (VInput.dictWithTables (Sum.inr ()))).success = false ∧
    (validate_mapping db (VInput.dictWithTables (Sum.inr ()))).errors ≠ [] ∧
    (validate_mapping db VInput.scalar).success = true ∧
    (validate_mapping db VInput.scalar).valid = some true ∧
    (validate_mapping db VInput.scalar).validations = [] ∧
    (validate_mapping db VInput.dictNoTables).success = true ∧
    (validate_mapping db VInput.dictNoTables).valid = some true := by
  refine ⟨rfl, ?_, rfl, rfl, rfl, rfl, rfl⟩
  simp [validate_mapping, extractTables]

/-- C8: for every table name absent from the catalog table set,
validate_mapping records exists=false and an empty column_validations list
for that table, regardless of which or how many columns were requested. -/
theorem validate_mapping_absent_table
    (db : Db) (reqs : List TableReq) (i : Nat) (t : String) (cols : List String)
    (hreq : reqs[i]? = some ⟨some t, cols⟩)
    (habs : t ∉ get_available_tables db) :
    ((validate_mapping db (VInput.listInput reqs)).validations)[i]?
        = some (TableVal.missing (some t)) ∧
    (TableVal.missing (some t)).exists_ = false ∧
    (TableVal.missing (some t)).column_validations = [] := by
  refine ⟨?_, rfl, rfl⟩
  have hv : (validate_mapping db (VInput.listInput reqs)).validations
      = reqs.map (validateTable db (get_available_tables db)) := rfl
  rw [hv, List.getElem?_map, hreq]
  simp [validateTable, habs]

/-- C8 witness: requesting the absent table U with two columns against the
concrete catalog dbTab. -/
theorem validate_mapping_absent_table_witness :
    ((validate_mapping dbTab (VInput.listInput [⟨some "U", ["x", "y"]⟩])).validations)[0]?
        = some (TableVal.missing (some "U")) ∧
    (TableVal.missing (some "U")).exists_ = false ∧
    (TableVal.missing (some "U")).column_validations = [] :=
  validate_mapping_absent_table dbTab [⟨some "U", ["x", "y"]⟩] 0 "U" ["x", "y"]
    (by rfl) (by decide)

/-- C10: when the sqlite_master query raises, get_available_tables returns
the empty list, so validate_mapping on any non-empty table request returns
success=true with every requested table reported absent, hence valid=false,
and an empty errors list — the database failure is masked. -/
theorem validate_mapping_masks_db_failure
    (db : Db) (e : String) (reqs : List TableReq)
    (he : db.tablesQuery = Except.error e) (hne : reqs ≠ []) :
    get_available_tables db = [] ∧
    (validate_mapping db (VInput.dictWithTables (Sum.inl reqs))).success = true ∧
    (validate_mapping db (VInput.dictWithTables (Sum.inl reqs))).valid = some false ∧
    (validate_mapping db (VInput.dictWithTables (Sum.inl reqs))).errors = [] ∧
    ∀ v ∈ (validate_mapping db (VInput.dictWithTables (Sum.inl reqs))).validations,
      v.exists_ = false := by
  have hav : get_available_tables db = [] := by simp [get_available_tables, he]
  have hvt : ∀ td : TableReq, (validateTable db [] td).exists_ = false := by
    intro td
    cases htn : td.tablename with
    | none => simp [validateTable, htn, TableVal.exists_]
    | some t => simp [validateTable, htn, TableVal.exists_]
  refine ⟨hav, rfl, ?_, rfl, ?_⟩
  · obtain ⟨r, rs, rfl⟩ : ∃ r rs, reqs = r :: rs := by
      cases reqs with
      | nil => exact absurd rfl hne
      | cons r rs => exact ⟨r, rs, rfl⟩
    have hr := hvt r
    simp [validate_mapping, extractTables, hav, hr]
  · intro v hvmem
    have : v ∈ reqs.map (validateTable db (get_available_tables db)) := hvmem
    rw [hav] at this
    rcases List.mem_map.mp this with ⟨td, _, rfl⟩
    exact hvt td

/-- C10 witness: the failing catalog dbFail with a single-table request. -/
theorem validate_mapping_masks_db_failure_witness :
    get_available_tables dbFail = [] ∧
    (validate_mapping dbFail (VInput.dictWithTables (Sum.inl [⟨some "T", ["a"]⟩]))).success
        = true ∧
    (validate_mapping dbFail (VInput.dictWithTables (Sum.inl [⟨some "T", ["a"]⟩]))).valid
        = some false ∧
    (validate_mapping dbFail (VInput.dictWithTables (Sum.inl [⟨some "T", ["a"]⟩]))).errors
        = [] ∧
    ∀ v ∈ (validate_mapping dbFail
        (VInput.dictWithTables (Sum.inl [⟨some "T", ["a"]⟩]))).validations,
      v.exists_ = false :=
  validate_mapping_masks_db_failure dbFail "database is locked" [⟨some "T", ["a"]⟩]
    (by rfl) (by decide)

/-- C7: for every mapping file containing the required columns and every
reference name matching zero rows under case-insensitive comparison,
get_mapping_details returns success=false with a non-empty errors list and
an empty mapping_data list (a structured payload, not an exception). -/
theorem get_mapping_details_not_found
    (df : XTable) (name : String)
    (hcols : ∀ c ∈ required_columns, c ∈ df.cols)
    (hnomatch : ∀ row ∈ df.rows,
      cellLowerStr (getCell df.cols row "Mapping Name") ≠ pyLower name) :
    (get_mapping_details (some df) name).success = false ∧
    (get_mapping_details (some df) name).errors ≠ [] ∧
    (get_mapping_details (some df) name).mapping_data = [] := by
  have hmn : "Mapping Name" ∈ df.cols :=
    hcols "Mapping Name" (by simp [required_columns])
  have hpick : pickRefCol df.cols = some "Mapping Name" := by
    simp [pickRefCol, hmn]
  have hmatch : df.rows.filter
      (fun row => cellLowerStr (getCell df.cols row "Mapping Name") == pyLower name) = [] := by
    apply List.filter_eq_nil_iff.mpr
    intro row hr
    simpa using hnomatch row hr
  refine ⟨?_, ?_, ?_⟩ <;>
    simp [get_mapping_details, hpick, hmatch, if_pos hcols]

/-- C7 witness: the scenario file queried for the unknown reference name
nope. -/
theorem get_mapping_details_not_found_witness :
    (get_mapping_details (some ordersTbl) "nope").success = false ∧
    (get_mapping_details (some ordersTbl) "nope").errors ≠ [] ∧
    (get_mapping_details (some ordersTbl) "nope").mapping_data = [] :=
  get_mapping_details_not_found ordersTbl "nope" (by decide) (by decide)

/-- The mapping_data component depends on the requested name only through
its lower-cased form. -/
theorem get_mapping_details_mdata (file : Option XTable) (n : String) :
    (get_mapping_details file n).mapping_data = mdataOf file (pyLower n) := by
  cases file with
  | none => rfl
  | some df =>
    cases hp : pickRefCol df.cols with
    | none => simp [get_mapping_details, mdataOf, hp]
    | some rc =>
      simp only [get_mapping_details, mdataOf, hp]
      split_ifs with h1 h2
      · rfl
      · cases hch : computeHints
            ((df.rows.filter
              (fun row => cellLowerStr (getCell df.cols row rc) == pyLower n)).map
              (normalizeRow df.cols)) with
        | error e => simp [hch]
        | ok v => simp [hch]
      · rfl

/-- C9: two reference names equal up to letter case resolve to identical
normalized mapping_data record sets, and resolving the same name twice
yields identical results. -/
theorem get_mapping_details_case_insensitive
    (file : Option XTable) (n1 n2 : String) (h : pyLower n1 = pyLower n2) :
    (get_mapping_details file n1).mapping_data
      = (get_mapping_details file n2).mapping_data ∧
    get_mapping_details file n1 = get_mapping_details file n1 := by
  refine ⟨?_, rfl⟩
  rw [get_mapping_details_mdata, get_mapping_details_mdata, h]

/-- C9 witness: the scenario file resolved under the names ORDERS_to_fact
and orders_to_fact. -/
theorem get_mapping_details_case_insensitive_witness :
    (get_mapping_details (some ordersTbl) "ORDERS_to_fact").mapping_data
      = (get_mapping_details (some ordersTbl) "orders_to_fact").mapping_data ∧
    get_mapping_details (some ordersTbl) "ORDERS_to_fact"
      = get_mapping_details (some ordersTbl) "ORDERS_to_fact" :=
  get_mapping_details_case_insensitive (some ordersTbl) "ORDERS_to_fact" "orders_to_fact"
    (by decide)

/-- C2: on the end-to-end scenario (reference orders_to_fact, one Table row
with alias o and definition orders, one Field Mapping row with target field
order_total, no transformation expression, alias o and definition total) the
resolution succeeds and the sql_generation_hints value computed by lines
147-178 carries exactly one field mapping whose expression is o.total — but
the payload returned by the source omits the sql_generation_hints key (lines
187-188 are commented out), contradicting the docstring of the function, so
the hints never reach the caller: the embedded result type, which mirrors
the keys actually returned, carries no hints component. -/
theorem get_mapping_details_hints_dropped :
    (get_mapping_details (some ordersTbl) "orders_to_fact").success = true ∧
    (get_mapping_details (some ordersTbl) "orders_to_fact").errors = [] ∧
    computeHints (get_mapping_details (some ordersTbl) "orders_to_fact").mapping_data
      = Except.ok
        { tables := [{ alias_ := some "o", definition := some "orders",
                       type := some "Table" }],
          joins := [], filters := [], target := none,
          field_mappings := [{ target_field := some "order_total",
                               expression := some "o.total",
                               default := none, is_active := none }] } :=
  ⟨rfl, rfl, rfl⟩

/-- Helper: under a backend whose every completion carries tool calls, one
pass over a tool-call list preserves both a truthy current message and a
positive loop counter. -/
theorem runCalls_truthy_inv (ctx : Ctx)
    (h : ∀ k, truthyCalls (ctx.backend k).tool_calls = true) :
    ∀ pending msg s, truthyCalls msg.tool_calls = true → 0 < s.loopCtr →
      truthyCalls ((runCalls ctx pending msg s).1).tool_calls = true ∧
      0 < ((runCalls ctx pending msg s).2).loopCtr := by
  intro pending
  induction pending with
  | nil => intro msg s h1 h2; exact ⟨h1, h2⟩
  | cons tc rest ih =>
      intro msg s h1 h2
      simp only [runCalls]
      exact ih _ _ (h _) (by simp [h])

/-- Helper: under such a backend, the while loop never reaches its exit
test with a zeroed counter, so every fuel bound is exhausted. -/
theorem runWhile_never_done (ctx : Ctx)
    (h : ∀ k, truthyCalls (ctx.backend k).tool_calls = true) :
    ∀ n msg s, truthyCalls msg.tool_calls = true → 0 < s.loopCtr →
      (runWhile ctx n msg s).isOutOfFuel = true := by
  intro n
  induction n with
  | zero => intro msg s _ _; rfl
  | succ m ih =>
      intro msg s h1 h2
      cases hc : msg.tool_calls with
      | none => rw [hc] at h1; exact absurd h1 (by simp [truthyCalls])
      | some calls =>
          have hinv := runCalls_truthy_inv ctx h calls msg s h1 h2
          simp only [runWhile, if_pos h2, hc]
          exact ih _ _ hinv.1 hinv.2

/-- C1: the claim asks that the orchestration loop stop within a configured
maximum turn count even against a backend that always requests further tool
calls; the source has no such cap — under any backend whose every completion
carries at least one tool call, process_query exhausts every fuel bound
without returning or raising, i.e. the while loop of lines 121-172 iterates
unboundedly. -/
theorem process_query_no_turn_cap (ctx : Ctx)
    (h : ∀ k, truthyCalls (ctx.backend k).tool_calls = true) :
    ∀ fuel query, (process_query ctx fuel query).isOutOfFuel = true := by
  intro fuel query
  exact runWhile_never_done ctx h fuel (ctx.backend 0) _ (h 0) (by simp)

/-- C1 witness: the backend ctxAlways requests the same tool call forever;
with fuel 3 the run is still going. -/
theorem process_query_no_turn_cap_witness :
    (process_query ctxAlways 3 "q").isOutOfFuel = true :=
  process_query_no_turn_cap ctxAlways (fun _ => rfl) 3 "q"

/-- Unfolding equation of the while loop at zero fuel. -/
theorem runWhile_zero (ctx : Ctx) (msg : Completion) (s : PState) :
    runWhile ctx 0 msg s = RunRes.outOfFuel s := rfl

/-- Unfolding equation of the while loop at positive fuel. -/
theorem runWhile_succ (ctx : Ctx) (n : Nat) (msg : Completion) (s : PState) :
    runWhile ctx (n + 1) msg s =
      if 0 < s.loopCtr then
        match msg.tool_calls with
        | none => RunRes.raised s
        | some calls =>
            runWhile ctx n (runCalls ctx calls msg s).1 (runCalls ctx calls msg s).2
      else RunRes.done s (String.intercalate "\n" s.finalText) := rfl

/-- Helper: one pass appends exactly its call/result/continue blocks to the
transcript. -/
theorem runCalls_messages (ctx : Ctx) :
    ∀ pending msg s, ((runCalls ctx pending msg s).2).messages
      = s.messages ++ msgBlocks ctx pending := by
  intro pending
  induction pending with
  | nil => intro msg s; simp [runCalls, msgBlocks]
  | cons tc rest ih =>
      intro msg s
      simp only [runCalls, msgBlocks]
      rw [ih]
      simp [List.append_assoc]

/-- Helper: granting the loop one more unit of fuel only ever appends
transcript messages; nothing is removed or reordered. -/
theorem runWhile_messages_extend (ctx : Ctx) (n : Nat) :
    ∀ msg s, ∃ tail,
      ((runWhile ctx (n + 1) msg s).state).messages
        = ((runWhile ctx n msg s).state).messages ++ tail := by
  induction n with
  | zero =>
      intro msg s
      by_cases hpos : 0 < s.loopCtr
      · cases hc : msg.tool_calls with
        | none =>
            refine ⟨[], ?_⟩
            simp [runWhile_succ, runWhile_zero, hpos, hc, RunRes.state]
        | some calls =>
            refine ⟨msgBlocks ctx calls, ?_⟩
            simp [runWhile_succ, runWhile_zero, hpos, hc, RunRes.state,
                  runCalls_messages]
      · refine ⟨[], ?_⟩
        simp [runWhile_succ, runWhile_zero, hpos, RunRes.state]
  | succ m ih =>
      intro msg s
      by_cases hpos : 0 < s.loopCtr
      · cases hc : msg.tool_calls with
        | none =>
            refine ⟨[], ?_⟩
            simp [runWhile_succ, hpos, hc, RunRes.state]
        | some calls =>
            obtain ⟨tail, ht⟩ :=
              ih (runCalls ctx calls msg s).1 (runCalls ctx calls msg s).2
            refine ⟨tail, ?_⟩
            simpa [runWhile_succ, hpos, hc] using ht
      · refine ⟨[], ?_⟩
        simp [runWhile_succ, hpos, RunRes.state]

/-- Helper: appending one call record, its result message and the continue
prompt preserves the ordering invariant. -/
theorem goodMsgs_append_triple (ctx : Ctx) (ms : List Msg) (tc : ToolCall)
    (h : goodMsgs ctx ms) :
    goodMsgs ctx (ms ++
      [Msg.assistantToolCall tc.id tc.name tc.args,
       Msg.assistantContent ("Response from tool " ++ tc.name ++ "\n" ++
         ctx.tool tc.name tc.args),
       Msg.user "Go to next step"]) := by
  intro i a b c hi
  rcases lt_trichotomy i ms.length with hlt | heq | hgt
  · have hi' : ms[i]? = some (Msg.assistantToolCall a b c) := by
      rwa [List.getElem?_append_left hlt] at hi
    have h2 := h i a b c hi'
    have hi1 : i + 1 < ms.length := by
      by_contra hcon
      have hnone : ms[i + 1]? = none := List.getElem?_eq_none (by omega)
      rw [hnone] at h2
      exact Option.noConfusion h2
    rw [List.getElem?_append_left hi1]
    exact h2
  · subst heq
    rw [List.getElem?_append_right (Nat.le_refl _), Nat.sub_self] at hi
    simp only [List.getElem?_cons_zero, Option.some.injEq] at hi
    obtain ⟨rfl, rfl, rfl⟩ : tc.id = a ∧ tc.name = b ∧ tc.args = c := by
      cases hi
      exact ⟨rfl, rfl, rfl⟩
    rw [List.getElem?_append_right (by omega)]
    have hidx : ms.length + 1 - ms.length = 1 := by omega
    rw [hidx]
    rfl
  · have hge : ms.length ≤ i := le_of_lt hgt
    rw [List.getElem?_append_right hge] at hi
    have h3 : i - ms.length = 1 ∨ i - ms.length = 2 ∨ 3 ≤ i - ms.length := by omega
    rcases h3 with h3 | h3 | h3
    · rw [h3] at hi
      exact absurd hi (by simp)
    · rw [h3] at hi
      exact absurd hi (by simp)
    · have hnone : ([Msg.assistantToolCall tc.id tc.name tc.args,
          Msg.assistantContent ("Response from tool " ++ tc.name ++ "\n" ++
            ctx.tool tc.name tc.args),
          Msg.user "Go to next step"] : List Msg)[i - ms.length]? = none :=
        List.getElem?_eq_none (by simpa using h3)
      rw [hnone] at hi
      exact Option.noConfusion hi

/-- Helper: appending the blocks of a whole pass preserves the ordering
invariant. -/
theorem goodMsgs_append_blocks (ctx : Ctx) :
    ∀ pending (ms : List Msg), goodMsgs ctx ms →
      goodMsgs ctx (ms ++ msgBlocks ctx pending) := by
  intro pending
  induction pending with
  | nil => intro ms h; simpa [msgBlocks] using h
  | cons tc rest ih =>
      intro ms h
      have h2 := ih _ (goodMsgs_append_triple ctx ms tc h)
      simpa [msgBlocks, List.append_assoc] using h2

/-- Helper: the while loop preserves the ordering invariant from any
starting transcript. -/
theorem runWhile_goodMsgs (ctx : Ctx) (n : Nat) :
    ∀ msg s, goodMsgs ctx s.messages →
      goodMsgs ctx ((runWhile ctx n msg s).state).messages := by
  induction n with
  | zero => intro msg s h; exact h
  | succ m ih =>
      intro msg s h
      by_cases hpos : 0 < s.loopCtr
      · cases hc : msg.tool_calls with
        | none => simpa [runWhile_succ, hpos, hc, RunRes.state] using h
        | some calls =>
            have hnext : goodMsgs ctx ((runCalls ctx calls msg s).2).messages := by
              rw [runCalls_messages]
              exact goodMsgs_append_blocks ctx calls s.messages h
            have := ih (runCalls ctx calls msg s).1 (runCalls ctx calls msg s).2 hnext
            simpa [runWhile_succ, hpos, hc] using this
      · simpa [runWhile_succ, hpos, RunRes.state] using h

/-- C6: the transcript of process_query is append-only — adding fuel only
appends messages — and for every assistant tool-call record in it, the
message carrying that call result sits immediately after it, hence strictly
before the record of any later tool call. -/
theorem process_query_transcript_ordering (ctx : Ctx) (fuel : Nat) (query : String) :
    (∃ tail, ((process_query ctx (fuel + 1) query).state).messages
        = ((process_query ctx fuel query).state).messages ++ tail) ∧
    (∀ i a b c,
      ((process_query ctx fuel query).state).messages[i]?
          = some (Msg.assistantToolCall a b c) →
      ((process_query ctx fuel query).state).messages[i + 1]?
          = some (Msg.assistantContent ("Response from tool " ++ b ++ "\n" ++
              ctx.tool b c))) ∧
    (∀ i j a b c a2 b2 c2, i < j →
      ((process_query ctx fuel query).state).messages[i]?
          = some (Msg.assistantToolCall a b c) →
      ((process_query ctx fuel query).state).messages[j]?
          = some (Msg.assistantToolCall a2 b2 c2) →
      i + 1 < j) := by
  have hinit : goodMsgs ctx [Msg.system systemPrompt, Msg.user query] := by
    intro i a b c hi
    match i with
    | 0 => simp at hi
    | 1 => simp at hi
    | n + 2 => simp at hi
  have hgood : goodMsgs ctx ((process_query ctx fuel query).state).messages :=
    runWhile_goodMsgs ctx fuel _ _ hinit
  refine ⟨runWhile_messages_extend ctx fuel _ _, hgood, ?_⟩
  intro i j a b c a2 b2 c2 hij hi hj
  have h2 := hgood i a b c hi
  by_contra hcon
  have hji : j = i + 1 := by omega
  subst hji
  rw [h2] at hj
  exact Msg.noConfusion (Option.some.inj hj)

/-- C6 witness: in the concrete two-turn run under ctxOnce the tool-call
record sits at index 2 and its result message at index 3. -/
theorem process_query_transcript_ordering_witness :
    ((process_query ctxOnce 2 "q").state).messages[2 + 1]?
      = some (Msg.assistantContent ("Response from tool " ++ "t" ++ "\n" ++
          ctxOnce.tool "t" "a")) :=
  (process_query_transcript_ordering ctxOnce 2 "q").2.1 2 "i" "t" "a" (by rfl)

/-- The two fragment-of-content definitions agree. -/
theorem specFrag_eq_contentFrag (c : Option String) : specFrag c = contentFrag c := by
  cases c <;> rfl

/-- Helper: one pass appends exactly its markers and completion contents to
final_text. -/
theorem runCalls_finalText (ctx : Ctx) :
    ∀ pending msg s, ((runCalls ctx pending msg s).2).finalText
      = s.finalText ++ specCallFrags ctx pending s.k := by
  intro pending
  induction pending with
  | nil => intro msg s; simp [runCalls, specCallFrags]
  | cons tc rest ih =>
      intro msg s
      simp only [runCalls, specCallFrags]
      rw [ih]
      simp [specFrag_eq_contentFrag, List.append_assoc]

/-- Helper: one pass requests one completion per processed call. -/
theorem runCalls_k (ctx : Ctx) :
    ∀ pending msg s, ((runCalls ctx pending msg s).2).k = s.k + pending.length := by
  intro pending
  induction pending with
  | nil => intro msg s; simp [runCalls]
  | cons tc rest ih =>
      intro msg s
      simp only [runCalls]
      rw [ih]
      simp
      omega

/-- Helper: after a non-empty pass the current message is the completion
requested last, and the loop counter is positive exactly when that
completion carries tool calls. -/
theorem runCalls_last (ctx : Ctx) :
    ∀ pending msg s, pending ≠ [] →
      (runCalls ctx pending msg s).1
          = ctx.backend (((runCalls ctx pending msg s).2).k - 1) ∧
      (0 < ((runCalls ctx pending msg s).2).loopCtr ↔
        truthyCalls ((runCalls ctx pending msg s).1).tool_calls = true) := by
  intro pending
  induction pending with
  | nil => intro msg s hne; exact absurd rfl hne
  | cons tc rest ih =>
      intro msg s _
      simp only [runCalls]
      cases hr : rest with
      | nil =>
          subst hr
          constructor
          · simp [runCalls]
          · simp only [runCalls]
            cases htr : truthyCalls (ctx.backend s.k).tool_calls <;> simp [htr]
      | cons tc2 rest2 =>
          rw [hr] at ih
          exact ih _ _ (by simp)

/-- Helper: a run of the while loop that finishes normally returns the
newline-join of the spec-side fragment sequence. -/
theorem runWhile_done_fragments (ctx : Ctx) :
    ∀ n msg s s' t, 0 < s.loopCtr →
      runWhile ctx n msg s = RunRes.done s' t →
      ∃ l, specWhile ctx n msg s.k = some l ∧
        s'.finalText = s.finalText ++ l ∧
        t = String.intercalate "\n" s'.finalText := by
  intro n
  induction n with
  | zero =>
      intro msg s s' t hpos hrun
      exact absurd hrun (by simp [runWhile_zero])
  | succ m ih =>
      intro msg s s' t hpos hrun
      rw [runWhile_succ, if_pos hpos] at hrun
      cases hc : msg.tool_calls with
      | none => rw [hc] at hrun; exact absurd hrun (by simp)
      | some calls =>
          rw [hc] at hrun
          cases calls with
          | nil =>
              obtain ⟨l, h1, h2, h3⟩ := ih msg s s' t hpos hrun
              refine ⟨l, ?_, h2, h3⟩
              simpa [specWhile, hc] using h1
          | cons c cs =>
              have hlen : (c :: cs).length = cs.length + 1 := rfl
              have hkk : ((runCalls ctx (c :: cs) msg s).2).k
                  = s.k + (cs.length + 1) := by
                rw [runCalls_k ctx (c :: cs) msg s, hlen]
              have hlast := runCalls_last ctx (c :: cs) msg s (by simp)
              have h1 : (runCalls ctx (c :: cs) msg s).1
                  = ctx.backend (s.k + cs.length) := by
                rw [hlast.1, hkk]
                exact congrArg ctx.backend (by omega)
              by_cases htr : truthyCalls
                  (ctx.backend (s.k + cs.length)).tool_calls = true
              · have hpos2 : 0 < ((runCalls ctx (c :: cs) msg s).2).loopCtr :=
                  hlast.2.mpr (by rw [h1]; exact htr)
                obtain ⟨l, hs1, hs2, hs3⟩ := ih _ _ s' t hpos2 hrun
                rw [h1, hkk] at hs1
                refine ⟨specCallFrags ctx (c :: cs) s.k ++ l, ?_, ?_, hs3⟩
                · simp [specWhile, hc, htr, hs1]
                · rw [hs2, runCalls_finalText, List.append_assoc]
              · have hz : ((runCalls ctx (c :: cs) msg s).2).loopCtr = 0 := by
                  by_contra hcon
                  exact htr (by
                    have hp := hlast.2.mp (Nat.pos_of_ne_zero hcon)
                    rwa [h1] at hp)
                cases m with
                | zero => exact absurd hrun (by simp [runWhile_zero])
                | succ m2 =>
                    have hrun2 : runWhile ctx (m2 + 1)
                        (runCalls ctx (c :: cs) msg s).1
                        (runCalls ctx (c :: cs) msg s).2 = RunRes.done s' t := hrun
                    rw [runWhile_succ, if_neg (by omega)] at hrun2
                    simp only [RunRes.done.injEq] at hrun2
                    obtain ⟨hs', ht'⟩ := hrun2
                    refine ⟨specCallFrags ctx (c :: cs) s.k, ?_, ?_, ?_⟩
                    · simp [specWhile, hc, htr]
                    · rw [← hs', runCalls_finalText]
                    · rw [← ht', ← hs']

/-- C5 counterexample: under the two-turn backend ctxOnce the text returned
by process_query is the marker line followed by "done", not the plain
concatenation of the free-text content fragments of the completions (which
is "done"): a bracketed tool-call marker and a newline are interleaved. -/
theorem process_query_text_not_plain_concat :
    (process_query ctxOnce 2 "q").doneText
        = some "[Calling tool t with args a]\ndone" ∧
    String.join (List.filterMap id
        [(ctxOnce.backend 0).content, (ctxOnce.backend 1).content]) = "done" ∧
    "[Calling tool t with args a]\ndone" ≠ "done" := by
  refine ⟨rfl, rfl, by decide⟩

/-- C5 amended: whenever process_query finishes normally, the returned text
is the newline-join of, in order, the first completion content (when
non-empty) and, per executed tool call, a bracketed calling marker followed
by the non-empty content of the completion requested right after it. -/
theorem process_query_returned_text (ctx : Ctx) (fuel : Nat) (query : String)
    (t : String) (h : (process_query ctx fuel query).doneText = some t) :
    ∃ l, specFragments ctx fuel = some l ∧ t = String.intercalate "\n" l := by
  cases hr : process_query ctx fuel query with
  | done s' t' =>
      rw [hr] at h
      have ht : t' = t := by simpa [RunRes.doneText] using h
      subst ht
      have hrun : runWhile ctx fuel (ctx.backend 0)
          { messages := [Msg.system systemPrompt, Msg.user query],
            finalText := contentFrag (ctx.backend 0).content,
            loopCtr := 1, k := 1 } = RunRes.done s' t' := hr
      obtain ⟨l, h1, h2, h3⟩ :=
        runWhile_done_fragments ctx fuel _ _ s' t' (by simp) hrun
      refine ⟨contentFrag (ctx.backend 0).content ++ l, ?_, ?_⟩
      · simp [specFragments, specFrag_eq_contentFrag]
        simp only [h1]
      · rw [h3, h2]
  | raised s => rw [hr] at h; exact absurd h (by simp [RunRes.doneText])
  | outOfFuel s => rw [hr] at h; exact absurd h (by simp [RunRes.doneText])

/-- C5 witness: the concrete two-turn run under ctxOnce. -/
theorem process_query_returned_text_witness :
    ∃ l, specFragments ctxOnce 2 = some l ∧
      "[Calling tool t with args a]\ndone" = String.intercalate "\n" l :=
  process_query_returned_text ctxOnce 2 "q" "[Calling tool t with args a]\ndone"
    (by rfl)

end DataMcp
